import Mathlib

set_option maxRecDepth 100000

/-!
Shallow embedding of the agentica code analyzer (code_reader.py,
progress_manager.py, config.py) together with proofs about the
progress state machine, the endpoint detector and the path guard.

Machine strings are modelled as Lean `String` (a structure over
`List Char`); Python dicts (which preserve insertion order) are
modelled as association lists where insertion appends at the end;
wall-clock timestamps are passed in as explicit arguments.
-/

/-! ## String helpers (code-point based, mirroring Python semantics) -/

/-- Strict code-point lexicographic order on character lists
(the order Python uses to compare `str` values). -/
def charListLt : List Char → List Char → Bool
  | [], [] => false
  | [], _ :: _ => true
  | _ :: _, [] => false
  | a :: as, b :: bs => if a = b then charListLt as bs else decide (a < b)

/-- Reflexive code-point lexicographic order on character lists. -/
def charListLe : List Char → List Char → Bool
  | [], _ => true
  | _ :: _, [] => false
  | a :: as, b :: bs => if a = b then charListLe as bs else decide (a < b)

/-- `startsWithChars s p` is Python's `s.startswith(p)` on code points. -/
def startsWithChars : List Char → List Char → Bool
  | _, [] => true
  | [], _ :: _ => false
  | c :: cs, p :: ps => if c = p then startsWithChars cs ps else false

/-- Python `s.split('\n')`. -/
def splitNL : List Char → List (List Char)
  | [] => [[]]
  | c :: rest =>
    let r := splitNL rest
    if c = '\n' then [] :: r
    else
      match r with
      | a :: t => (c :: a) :: t
      | [] => [[c]]

/-- Number of newline characters among the first `n` characters
(Python `content[:n].count('\n')`). -/
def countNL (l : List Char) (n : Nat) : Nat :=
  (l.take n).countP (fun c => decide (c = '\n'))

/-- ASCII upper-casing, Python `str.upper` restricted to ASCII input. -/
def upperAscii (s : String) : String :=
  ⟨s.data.map (fun c => if 'a' ≤ c ∧ c ≤ 'z' then Char.ofNat (c.toNat - 32) else c)⟩

/-- Remove every occurrence of the (non-empty) substring `needle`,
Python `s.replace(needle, "")`, by fuelled left-to-right scanning. -/
def removeSubAux (needle : List Char) : Nat → List Char → List Char
  | 0, _ => []
  | _ + 1, [] => []
  | fuel + 1, c :: rest =>
    if startsWithChars (c :: rest) needle then
      removeSubAux needle fuel ((c :: rest).drop needle.length)
    else
      c :: removeSubAux needle fuel rest

def removeSub (s needle : String) : String :=
  ⟨removeSubAux needle.data s.data.length s.data⟩

/-- Python truthiness of an optional string: `None` and `""` are falsy. -/
def truthy : Option String → Bool
  | none => false
  | some s => decide (s ≠ "")

/-- Python `x or default` for an optional string. -/
def pyOr (o : Option String) (d : String) : String :=
  match o with
  | some s => if s = "" then d else s
  | none => d

/-- Python rendering of an optional string inside an f-string:
`None` prints as the literal string "None". -/
def optStrPy : Option String → String
  | none => "None"
  | some s => s

/-! ## Data model of progress_manager.py -/

/-- EndpointProgress: per-endpoint analysis progress (progress_manager.py). -/
structure EndpointProgress where
  endpoint_id : String
  endpoint_name : String
  endpoint_type : String
  file_path : String
  status : String := "pending"
  doc_file : Option String := none
  started_at : Option String := none
  completed_at : Option String := none
  error_message : Option String := none
  retry_count : Nat := 0
deriving Repr, DecidableEq

/-- The `endpoints` dict of `AnalysisProgress`: an insertion-ordered map
from endpoint id to record, as Python dicts are. -/
abbrev EndpointMap := List (String × EndpointProgress)

/-- Dictionary lookup (`progress.endpoints.get(k)` / `progress.endpoints[k]`). -/
def epFind : EndpointMap → String → Option EndpointProgress
  | [], _ => none
  | kv :: rest, k => if kv.1 = k then some kv.2 else epFind rest k

/-- Python `k in progress.endpoints`. -/
def epContains (m : EndpointMap) (k : String) : Bool :=
  (epFind m k).isSome

/-- In-place mutation of the record stored under key `k`
(`progress.endpoints[k].field = ...`). -/
def epModify (k : String) (f : EndpointProgress → EndpointProgress) : EndpointMap → EndpointMap
  | [] => []
  | kv :: rest =>
    if kv.1 = k then (kv.1, f kv.2) :: epModify k f rest
    else kv :: epModify k f rest

/-- AnalysisProgress: the whole progress store (progress_manager.py). -/
structure AnalysisProgress where
  project_name : String
  code_dir : String
  output_dir : String
  total_endpoints : Nat := 0
  completed_count : Nat := 0
  failed_count : Nat := 0
  pending_count : Nat := 0
  last_run : Option String := none
  created_at : String := ""
  endpoints : EndpointMap := []
deriving Repr, DecidableEq

/-- `sum(1 for ep in endpoints.values() if ep.status == s)`. -/
def countStatus (m : EndpointMap) (s : String) : Nat :=
  m.countP (fun kv => decide (kv.2.status = s))

/-- `AnalysisProgress.update_counts`: recompute the cached counters from
the record set. -/
def AnalysisProgress.update_counts (p : AnalysisProgress) : AnalysisProgress :=
  { p with
    completed_count := countStatus p.endpoints "completed"
    failed_count := countStatus p.endpoints "failed"
    pending_count := countStatus p.endpoints "pending"
    total_endpoints := p.endpoints.length }

/-! ## Operations of ProgressManager (pure view)

Each operation below is the effect of the corresponding
`ProgressManager` method on the loaded in-memory store.  Methods that
call `save_progress` end with `update_counts` (save recomputes the
counters on the in-memory object before writing it out); methods whose
guard fails return the store untouched, exactly as the Python code
silently falls through.  `datetime.now().isoformat()` is passed in as
the explicit argument `now`. -/

/-- `ProgressManager.mark_in_progress(endpoint_id)`. -/
def mark_in_progress (p : AnalysisProgress) (endpoint_id now : String) : AnalysisProgress :=
  if epContains p.endpoints endpoint_id then
    ({ p with
        endpoints := epModify endpoint_id
          (fun ep => { ep with status := "in_progress", started_at := some now }) p.endpoints
        last_run := some now }).update_counts
  else p

/-- `ProgressManager.mark_completed(endpoint_id, doc_file)`. -/
def mark_completed (p : AnalysisProgress) (endpoint_id doc_file now : String) : AnalysisProgress :=
  if epContains p.endpoints endpoint_id then
    ({ p with
        endpoints := epModify endpoint_id
          (fun ep => { ep with status := "completed", doc_file := some doc_file,
                               completed_at := some now }) p.endpoints }).update_counts
  else p

/-- `ProgressManager.mark_failed(endpoint_id, error_message)`. -/
def mark_failed (p : AnalysisProgress) (endpoint_id error_message : String) : AnalysisProgress :=
  if epContains p.endpoints endpoint_id then
    ({ p with
        endpoints := epModify endpoint_id
          (fun ep => { ep with status := "failed", error_message := some error_message,
                               retry_count := ep.retry_count + 1 }) p.endpoints }).update_counts
  else p

/-- `ProgressManager.reset_failed()`. -/
def reset_failed (p : AnalysisProgress) : AnalysisProgress :=
  ({ p with
      endpoints := p.endpoints.map (fun (kv : String × EndpointProgress) =>
        if kv.2.status = "failed" then
          (kv.1, { kv.2 with status := "pending", error_message := none })
        else kv) }).update_counts

/-! ## A small regular-expression engine

The detector in code_reader.py uses Python `re` patterns built from
literals, `\w`, `\s`, `.`, positive/negative character classes, the
greedy quantifiers `* + ?`, ordered alternation and (capturing or
non-capturing) groups — with every quantified subexpression either a
single character class or a capture-free group.  The engine below
implements exactly that subset with Python's leftmost, ordered-choice,
greedy backtracking semantics (`re.MULTILINE` only alters `^`/`$`,
which none of the patterns use). -/

/-- One character matcher. -/
inductive Atom where
  | lit (c : Char)
  | word
  | space
  | anyNoNL
  | oneOf (cs : List Char)
  | negOf (cs : List Char) (alsoNoSpace : Bool)
deriving Repr, DecidableEq

/-- Python `\w` on ASCII input. -/
def isWordChar (c : Char) : Bool :=
  (('a' ≤ c && c ≤ 'z') || ('A' ≤ c && c ≤ 'Z') || ('0' ≤ c && c ≤ '9') || c = '_')

/-- Python `\s` on ASCII input. -/
def isSpaceChar (c : Char) : Bool :=
  c = ' ' || c = '\t' || c = '\n' || c = '\r' || c = Char.ofNat 11 || c = Char.ofNat 12

def Atom.matches : Atom → Char → Bool
  | .lit d, c => c = d
  | .word, c => isWordChar c
  | .space, c => isSpaceChar c
  | .anyNoNL, c => c ≠ '\n'
  | .oneOf cs, c => cs.contains c
  | .negOf cs noSp, c => !(cs.contains c) && !(noSp && isSpaceChar c)

/-- Regular expressions of the subset used by code_reader.py.  `alt` is
ordered (left branch preferred), `opt`/`starA`/`plusA` are greedy. -/
inductive Regex where
  | eps
  | atom (a : Atom)
  | seq (r s : Regex)
  | alt (r s : Regex)
  | opt (r : Regex)
  | starA (a : Atom)
  | plusA (a : Atom)
  | group (idx : Nat) (r : Regex)
deriving Repr, DecidableEq

/-- Captured groups: index paired with captured text. -/
abbrev Groups := List (Nat × List Char)

/-- Length of the maximal run of characters matched by atom `a`. -/
def leadRun (a : Atom) : List Char → Nat
  | [] => 0
  | c :: cs => if a.matches c then leadRun a cs + 1 else 0

/-- Greedy backtracking over an atom run: try consuming `i` characters
for `i = n, n-1, ..., 0`, first success wins. -/
def tryDrops (s : List Char) (g : Groups)
    (k : List Char → Groups → Option (List Char × Groups)) :
    Nat → Option (List Char × Groups)
  | 0 => k s g
  | i + 1 =>
    match k (s.drop (i + 1)) g with
    | some res => some res
    | none => tryDrops s g k i

/-- Backtracking matcher in continuation style.  `matchR r s g k`
attempts to match `r` against a front segment of `s` (with groups
accumulated in `g`) and passes the remaining suffix to `k`, exploring
alternatives in Python's priority order. -/
def matchR : Regex → List Char → Groups →
    (List Char → Groups → Option (List Char × Groups)) → Option (List Char × Groups)
  | .eps, s, g, k => k s g
  | .atom a, s, g, k =>
    match s with
    | [] => none
    | c :: rest => if a.matches c then k rest g else none
  | .seq r1 r2, s, g, k => matchR r1 s g (fun s2 g2 => matchR r2 s2 g2 k)
  | .alt r1 r2, s, g, k =>
    match matchR r1 s g k with
    | some res => some res
    | none => matchR r2 s g k
  | .opt r, s, g, k =>
    match matchR r s g k with
    | some res => some res
    | none => k s g
  | .starA a, s, g, k => tryDrops s g k (leadRun a s)
  | .plusA a, s, g, k =>
    match s with
    | [] => none
    | c :: rest => if a.matches c then tryDrops rest g k (leadRun a rest) else none
  | .group i r, s, g, k =>
    matchR r s g (fun s2 g2 => k s2 ((i, s.take (s.length - s2.length)) :: g2))

/-- One match: start offset, end offset, captured groups. -/
structure RMatch where
  startPos : Nat
  stopPos : Nat
  caps : Groups
deriving Repr, DecidableEq

/-- Try to match `r` at offset `pos` of `full` (Python `re.match` at
that offset). -/
def matchAt (r : Regex) (full : List Char) (pos : Nat) : Option RMatch :=
  let tail := full.drop pos
  match matchR r tail [] (fun s g => some (s, g)) with
  | some (s, g) => some ⟨pos, pos + (tail.length - s.length), g⟩
  | none => none

/-- Scan positions `pos, pos+1, ...` emitting non-overlapping matches —
Python `re.finditer`.  The fuel starts at `full.length + 1`, enough for
every position. -/
def scanAux (r : Regex) (full : List Char) : Nat → Nat → List RMatch
  | 0, _ => []
  | fuel + 1, pos =>
    if pos > full.length then []
    else
      match matchAt r full pos with
      | some m =>
        m :: scanAux r full fuel (if pos < m.stopPos then m.stopPos else pos + 1)
      | none => scanAux r full fuel (pos + 1)

def finditer (r : Regex) (full : List Char) : List RMatch :=
  scanAux r full (full.length + 1) 0

/-- First match anywhere in the string — Python `re.search`. -/
def searchAux (r : Regex) (full : List Char) : Nat → Nat → Option RMatch
  | 0, _ => none
  | fuel + 1, pos =>
    if pos > full.length then none
    else
      match matchAt r full pos with
      | some m => some m
      | none => searchAux r full fuel (pos + 1)

def searchFirst (r : Regex) (full : List Char) : Option RMatch :=
  searchAux r full (full.length + 1) 0

/-- Captured text of group `i`, Python `match.group(i)`:
`none` when the group did not participate in the match. -/
def getGroup (m : RMatch) (i : Nat) : Option (List Char) :=
  match m.caps.find? (fun g => decide (g.1 = i)) with
  | some g => some g.2
  | none => none

/-- Python `match.groups()` for a pattern with `ngroups` groups. -/
def groupList (m : RMatch) (ngroups : Nat) : List (Option String) :=
  (List.range ngroups).map (fun i =>
    match getGroup m (i + 1) with
    | some cs => some ⟨cs⟩
    | none => none)

/-- Sequential literal string. -/
def strLit (w : String) : Regex :=
  w.data.foldr (fun c acc => Regex.seq (.atom (.lit c)) acc) .eps

/-- Ordered alternation over a list of literal words. -/
def altStrs : List String → Regex
  | [] => .eps
  | [w] => strLit w
  | w :: ws => .alt (strLit w) (altStrs ws)

/-! ## Pattern tables of code_reader.py

Transcriptions of `HTTP_PATTERNS`, `GRPC_PATTERNS` and the function
signature patterns of `_find_function_at_line`.  `qt` is the character
class `[\'"]`, `notQt` is `[^\'"]`, and `seqs` chains a list of parts
in sequence. -/

def seqs (l : List Regex) : Regex := l.foldr Regex.seq .eps

def squote : Char := Char.ofNat 39

def qt : Regex := .atom (.oneOf [squote, '"'])

def notQt : Atom := .negOf [squote, '"'] false

/-- A detection rule: compiled pattern, framework tag, number of
capture groups in the pattern (the length of `match.groups()`). -/
structure Rule where
  pat : Regex
  tag : String
  ngroups : Nat
deriving Repr, DecidableEq

/-- Flask-style `@<name>\.route\([\'"]([^\'"]+)[\'"](?:.*methods=\[([^\]]+)\])?`. -/
def flaskPat (name : String) : Regex :=
  seqs [.atom (.lit '@'), strLit name, .atom (.lit '.'), strLit "route",
        .atom (.lit '('), qt, .group 1 (.plusA notQt), qt,
        .opt (seqs [.starA .anyNoNL, strLit "methods=[",
                    .group 2 (.plusA (.negOf [']'] false)), .atom (.lit ']')])]

/-- FastAPI `@(?:app|router)\.(get|post|put|delete|patch)\([\'"]([^\'"]+)[\'"]`. -/
def fastapiPat : Regex :=
  seqs [.atom (.lit '@'), .alt (strLit "app") (strLit "router"), .atom (.lit '.'),
        .group 1 (altStrs ["get", "post", "put", "delete", "patch"]),
        .atom (.lit '('), qt, .group 2 (.plusA notQt), qt]

/-- Django `path\([\'"]([^\'"]+)[\'"]`. -/
def djangoPat : Regex :=
  seqs [strLit "path", .atom (.lit '('), qt, .group 1 (.plusA notQt), qt]

/-- Go-router pattern `(\w+)\.(M1|M2|...)\s*\(\s*[\'"]([^\'"]+)[\'"]`
shared by the gin / echo / chi / fiber rules (with their method lists). -/
def goRouterPat (methods : List String) : Regex :=
  seqs [.group 1 (.plusA .word), .atom (.lit '.'), .group 2 (altStrs methods),
        .starA .space, .atom (.lit '('), .starA .space, qt,
        .group 3 (.plusA notQt), qt]

/-- net/http `http\.HandleFunc\s*\(\s*[\'"]([^\'"]+)[\'"]`. -/
def netHttpPat : Regex :=
  seqs [strLit "http", .atom (.lit '.'), strLit "HandleFunc", .starA .space,
        .atom (.lit '('), .starA .space, qt, .group 1 (.plusA notQt), qt]

/-- Spring `@(GetMapping|...)\([\'"]?([^\'")\s]+)?`. -/
def springPat : Regex :=
  seqs [.atom (.lit '@'),
        .group 1 (altStrs ["GetMapping", "PostMapping", "PutMapping",
                           "DeleteMapping", "PatchMapping"]),
        .atom (.lit '('), .opt qt,
        .opt (.group 2 (.plusA (.negOf [squote, '"', ')'] true)))]

/-- Spring `@RequestMapping\((?:value\s*=\s*)?[\'"]([^\'"]+)[\'"](?:.*method\s*=\s*RequestMethod\.(\w+))?`. -/
def springRmPat : Regex :=
  seqs [.atom (.lit '@'), strLit "RequestMapping", .atom (.lit '('),
        .opt (seqs [strLit "value", .starA .space, .atom (.lit '='), .starA .space]),
        qt, .group 1 (.plusA notQt), qt,
        .opt (seqs [.starA .anyNoNL, strLit "method", .starA .space,
                    .atom (.lit '='), .starA .space, strLit "RequestMethod",
                    .atom (.lit '.'), .group 2 (.plusA .word)])]

/-- Express `(?:app|router)\.(get|post|put|delete|patch)\([\'"]([^\'"]+)[\'"]`. -/
def expressPat : Regex :=
  seqs [.alt (strLit "app") (strLit "router"), .atom (.lit '.'),
        .group 1 (altStrs ["get", "post", "put", "delete", "patch"]),
        .atom (.lit '('), qt, .group 2 (.plusA notQt), qt]

/-- NestJS `@(Get|Post|Put|Delete|Patch)\([\'"]?([^\'")\s]+)?`. -/
def nestjsPat : Regex :=
  seqs [.atom (.lit '@'),
        .group 1 (altStrs ["Get", "Post", "Put", "Delete", "Patch"]),
        .atom (.lit '('), .opt qt,
        .opt (.group 2 (.plusA (.negOf [squote, '"', ')'] true)))]

/-- `CodeReader.HTTP_PATTERNS`. -/
def httpRules : String → List Rule
  | "python" =>
    [⟨flaskPat "app", "flask", 2⟩, ⟨flaskPat "bp", "flask_bp", 2⟩,
     ⟨fastapiPat, "fastapi", 2⟩, ⟨djangoPat, "django", 1⟩]
  | "go" =>
    [⟨goRouterPat ["GET", "POST", "PUT", "DELETE", "PATCH", "HEAD", "OPTIONS"], "gin", 3⟩,
     ⟨goRouterPat ["GET", "POST", "PUT", "DELETE", "PATCH"], "echo", 3⟩,
     ⟨goRouterPat ["Get", "Post", "Put", "Delete", "Patch"], "chi", 3⟩,
     ⟨netHttpPat, "net_http", 1⟩,
     ⟨goRouterPat ["Get", "Post", "Put", "Delete", "Patch"], "fiber", 3⟩]
  | "java" => [⟨springPat, "spring", 2⟩, ⟨springRmPat, "spring_rm", 2⟩]
  | "javascript" => [⟨expressPat, "express", 2⟩]
  | "typescript" => [⟨expressPat, "express", 2⟩, ⟨nestjsPat, "nestjs", 2⟩]
  | _ => []

/-- Protobuf `service\s+(\w+)\s*\{`. -/
def protoServicePat : Regex :=
  seqs [strLit "service", .plusA .space, .group 1 (.plusA .word),
        .starA .space, .atom (.lit '\x7b')]

/-- Protobuf `rpc\s+(\w+)\s*\(`. -/
def protoRpcPat : Regex :=
  seqs [strLit "rpc", .plusA .space, .group 1 (.plusA .word),
        .starA .space, .atom (.lit '(')]

/-- Go `func\s*\([^)]+\)\s*(\w+)\s*\([^)]*pb\.\w+`. -/
def goGrpcImplPat : Regex :=
  seqs [strLit "func", .starA .space, .atom (.lit '('),
        .plusA (.negOf [')'] false), .atom (.lit ')'), .starA .space,
        .group 1 (.plusA .word), .starA .space, .atom (.lit '('),
        .starA (.negOf [')'] false), strLit "pb", .atom (.lit '.'), .plusA .word]

/-- Go `Register(\w+)Server\s*\(`. -/
def goGrpcRegisterPat : Regex :=
  seqs [strLit "Register", .group 1 (.plusA .word), strLit "Server",
        .starA .space, .atom (.lit '(')]

/-- Python `class\s+(\w+)Servicer\s*\(`. -/
def pyServicerPat : Regex :=
  seqs [strLit "class", .plusA .space, .group 1 (.plusA .word),
        strLit "Servicer", .starA .space, .atom (.lit '(')]

/-- Python `def\s+(\w+)\s*\(self,\s*request`. -/
def pyGrpcMethodPat : Regex :=
  seqs [strLit "def", .plusA .space, .group 1 (.plusA .word), .starA .space,
        .atom (.lit '('), strLit "self,", .starA .space, strLit "request"]

/-- Java `class\s+(\w+)\s+extends\s+\w+Grpc\.\w+ImplBase`. -/
def javaGrpcImplPat : Regex :=
  seqs [strLit "class", .plusA .space, .group 1 (.plusA .word), .plusA .space,
        strLit "extends", .plusA .space, .plusA .word, strLit "Grpc",
        .atom (.lit '.'), .plusA .word, strLit "ImplBase"]

/-- Java `public\s+\w+\s+(\w+)\s*\([^)]*\w+Request`. -/
def javaGrpcMethodPat : Regex :=
  seqs [strLit "public", .plusA .space, .plusA .word, .plusA .space,
        .group 1 (.plusA .word), .starA .space, .atom (.lit '('),
        .starA (.negOf [')'] false), .plusA .word, strLit "Request"]

/-- `CodeReader.GRPC_PATTERNS`. -/
def grpcRules : String → List Rule
  | "protobuf" => [⟨protoServicePat, "service", 1⟩, ⟨protoRpcPat, "rpc", 1⟩]
  | "go" => [⟨goGrpcImplPat, "grpc_impl", 1⟩, ⟨goGrpcRegisterPat, "grpc_register", 1⟩]
  | "python" => [⟨pyServicerPat, "grpc_servicer", 1⟩, ⟨pyGrpcMethodPat, "grpc_method", 1⟩]
  | "java" => [⟨javaGrpcImplPat, "grpc_impl", 1⟩, ⟨javaGrpcMethodPat, "grpc_method", 1⟩]
  | _ => []

/-- Python `def\s+(\w+)\s*\(`. -/
def pyFuncPat : Regex :=
  seqs [strLit "def", .plusA .space, .group 1 (.plusA .word),
        .starA .space, .atom (.lit '(')]

/-- Go `func\s+(?:\([^)]+\)\s+)?(\w+)\s*\(`. -/
def goFuncPat : Regex :=
  seqs [strLit "func", .plusA .space,
        .opt (seqs [.atom (.lit '('), .plusA (.negOf [')'] false),
                    .atom (.lit ')'), .plusA .space]),
        .group 1 (.plusA .word), .starA .space, .atom (.lit '(')]

/-- Java `(?:public|private|protected)?\s*\w+\s+(\w+)\s*\(`. -/
def javaFuncPat : Regex :=
  seqs [.opt (altStrs ["public", "private", "protected"]), .starA .space,
        .plusA .word, .plusA .space, .group 1 (.plusA .word),
        .starA .space, .atom (.lit '(')]

/-- JS/TS `(?:function\s+(\w+)|(\w+)\s*[=:]\s*(?:async\s+)?(?:function|\([^)]*\)\s*=>))`. -/
def jsFuncPat : Regex :=
  .alt (seqs [strLit "function", .plusA .space, .group 1 (.plusA .word)])
       (seqs [.group 2 (.plusA .word), .starA .space, .atom (.oneOf ['=', ':']),
              .starA .space, .opt (seqs [strLit "async", .plusA .space]),
              .alt (strLit "function")
                   (seqs [.atom (.lit '('), .starA (.negOf [')'] false),
                          .atom (.lit ')'), .starA .space, strLit "=>"])])

/-- The `func_patterns` table of `_find_function_at_line`, with the
group count of each pattern. -/
def funcRule : String → Option (Regex × Nat)
  | "python" => some (pyFuncPat, 1)
  | "go" => some (goFuncPat, 1)
  | "java" => some (javaFuncPat, 1)
  | "javascript" => some (jsFuncPat, 2)
  | "typescript" => some (jsFuncPat, 2)
  | _ => none

/-! ## EndpointInfo and the detector (code_reader.py) -/

/-- EndpointInfo (code_reader.py). -/
structure EndpointInfo where
  name : String
  type : String
  method : Option String := none
  path : Option String := none
  file_path : String := ""
  line_number : Nat := 0
  function_name : String := ""
  service_name : Option String := none
  description : Option String := none
deriving Repr, DecidableEq

/-- `EndpointInfo.unique_id`:
`f"grpc_{service_name}_{name}"` for grpc, else
`f"http_{method}_{path}".replace("/", "_").replace("{", "").replace("}", "")`.
All three replaced patterns are single characters, so the chain equals a
single character-wise pass. -/
def EndpointInfo.unique_id (e : EndpointInfo) : String :=
  if e.type = "grpc" then
    "grpc_" ++ optStrPy e.service_name ++ "_" ++ e.name
  else
    ⟨("http_" ++ optStrPy e.method ++ "_" ++ optStrPy e.path).data.foldr
      (fun c acc =>
        if c = '/' then '_' :: acc
        else if c = '\x7b' ∨ c = '\x7d' then acc
        else c :: acc) []⟩

/-- CodeFile (code_reader.py); `path` and `size` are omitted as no
claim mentions them. -/
structure CodeFile where
  relative_path : String
  content : String
  language : String
deriving Repr, DecidableEq

/-- `CodeReader._find_function_at_line`, inner loop: scan lines
`i, i+1, ...` strictly below `hi`; on the first line where the pattern
matches, return the first non-empty capture group of that match; if a
matching line has no non-empty group, continue with the next line. -/
def firstTruthyGroup (m : RMatch) : Nat → Nat → Option String
  | _, 0 => none
  | i, left + 1 =>
    match getGroup m i with
    | some cs => if cs.isEmpty then firstTruthyGroup m (i + 1) left else some ⟨cs⟩
    | none => firstTruthyGroup m (i + 1) left

def scanLinesAux (pat : Regex) (ng : Nat) (ls : List (List Char)) : Nat → Nat → Option String
  | _, 0 => none
  | i, fuel + 1 =>
    match searchFirst pat (ls.getD i []) with
    | some m =>
      match firstTruthyGroup m 1 ng with
      | some g => some g
      | none => scanLinesAux pat ng ls (i + 1) fuel
    | none => scanLinesAux pat ng ls (i + 1) fuel

/-- `CodeReader._find_function_at_line(lines, line_num, language)`:
search lines `line_num - 1` up to `min(line_num + 5, len(lines)) - 1`. -/
def find_function_at_line (ls : List (List Char)) (line_num : Nat) (language : String) :
    Option String :=
  match funcRule language with
  | none => none
  | some (pat, ng) =>
    let hi := min (line_num + 5) ls.length
    scanLinesAux pat ng ls (line_num - 1) (hi - (line_num - 1))

/-- Python `re.findall(r"'(\w+)'", s)`, used for Flask method lists. -/
def quotedWordPat : Regex :=
  seqs [.atom (.lit squote), .group 1 (.plusA .word), .atom (.lit squote)]

def findallQuotedWords (s : String) : List String :=
  (finditer quotedWordPat s.data).filterMap (fun m =>
    match getGroup m 1 with
    | some cs => some (⟨cs⟩ : String)
    | none => none)

/-- The per-framework field extraction of `_find_http_endpoints`,
returning `(method, path)`.  In the rules reachable in each branch the
groups read without a None-guard always participate in the match, so
reading them through a `""` default is faithful. -/
def extractMP (tag : String) (gs : List (Option String)) : String × String :=
  if tag = "gin" ∨ tag = "echo" ∨ tag = "chi" ∨ tag = "fiber" then
    let method := if gs.length > 1 then upperAscii ((gs.getD 1 none).getD "") else "GET"
    let path := if gs.length > 2 ∧ truthy (gs.getD 2 none) then (gs.getD 2 none).getD "" else "/"
    (method, path)
  else if tag = "fastapi" ∨ tag = "express" ∨ tag = "nestjs" then
    let method := upperAscii ((gs.getD 0 none).getD "")
    let path := if gs.length > 1 ∧ truthy (gs.getD 1 none) then (gs.getD 1 none).getD "" else "/"
    (method, path)
  else if tag = "flask" ∨ tag = "flask_bp" then
    let path := (gs.getD 0 none).getD ""
    let method :=
      if gs.length > 1 ∧ truthy (gs.getD 1 none) then
        match findallQuotedWords ((gs.getD 1 none).getD "") with
        | m :: _ => upperAscii m
        | [] => "GET"
      else "GET"
    (method, path)
  else if tag = "spring" then
    let mapping_type := (gs.getD 0 none).getD ""
    let path := if truthy (gs.getD 1 none) then (gs.getD 1 none).getD "" else "/"
    (upperAscii (removeSub mapping_type "Mapping"), path)
  else if tag = "spring_rm" then
    let path := (gs.getD 0 none).getD ""
    let method := if gs.length > 1 ∧ truthy (gs.getD 1 none) then (gs.getD 1 none).getD "" else "GET"
    (method, path)
  else
    let path := if gs.length > 0 then (gs.getD 0 none).getD "" else "/"
    ("GET", path)

/-- `CodeReader._find_http_endpoints`: apply every rule of the file's
language over the full text, in rule order, emitting one candidate per
match. -/
def find_http_endpoints (cf : CodeFile) : List EndpointInfo :=
  let ls := splitNL cf.content.data
  (httpRules cf.language).foldl (fun acc rule =>
    acc ++ (finditer rule.pat cf.content.data).map (fun m =>
      let line_num := countNL cf.content.data m.startPos + 1
      let mp := extractMP rule.tag (groupList m rule.ngroups)
      let fn := find_function_at_line ls line_num cf.language
      { name := pyOr fn (mp.1 ++ "_" ++ mp.2)
        type := "http"
        method := some mp.1
        path := some mp.2
        file_path := cf.relative_path
        line_number := line_num
        function_name := pyOr fn "" })) []

/-- `CodeReader._find_grpc_endpoints`: the rules are iterated in the
OUTER loop and the matches of each rule in the inner loop, with the
mutable `current_service` threaded across both; a "service" match sets
it, a "rpc"/"grpc_method"/"grpc_impl" match emits a candidate carrying
its current value, other tags do nothing. -/
def grpcStep (cf : CodeFile) (rule : Rule) (st : Option String × List EndpointInfo)
    (m : RMatch) : Option String × List EndpointInfo :=
  let line_num := countNL cf.content.data m.startPos + 1
  let name : String := ⟨(getGroup m 1).getD []⟩
  if rule.tag = "service" then (some name, st.2)
  else if rule.tag = "rpc" ∨ rule.tag = "grpc_method" ∨ rule.tag = "grpc_impl" then
    (st.1, st.2 ++ [{ name := name, type := "grpc", service_name := st.1,
                      file_path := cf.relative_path, line_number := line_num,
                      function_name := name }])
  else st

def find_grpc_endpoints (cf : CodeFile) : List EndpointInfo :=
  ((grpcRules cf.language).foldl (fun st rule =>
    (finditer rule.pat cf.content.data).foldl (grpcStep cf rule) st)
    ((none : Option String), ([] : List EndpointInfo))).2

/-- The per-file body of `CodeReader.find_endpoints`: HTTP candidates
then gRPC candidates, each appended only if its `unique_id` was not
seen before. -/
def dedupById (seen : List String) (eps : List EndpointInfo) :
    List String × List EndpointInfo :=
  eps.foldl (fun st ep =>
    if st.1.contains ep.unique_id then st
    else (st.1 ++ [ep.unique_id], st.2 ++ [ep])) (seen, [])

def findEndpointsInFile (seen : List String) (cf : CodeFile) :
    List String × List EndpointInfo :=
  dedupById seen (find_http_endpoints cf ++ find_grpc_endpoints cf)

/-! ## Reconciler and batch selector (progress_manager.py) -/

/-- The fresh `EndpointProgress` inserted by `sync_endpoints` for a
newly seen candidate. -/
def newRecOf (ep : EndpointInfo) : EndpointProgress :=
  { endpoint_id := ep.unique_id
    endpoint_name := ep.name
    endpoint_type := ep.type
    file_path := ep.file_path
    status := "pending" }

/-- The insertion loop of `sync_endpoints`: for each candidate in
detection order, insert a fresh pending record unless its id is
already a key.  (The loop over vanished ids in the source is
literally `pass`, so it contributes nothing.) -/
def syncFold (eps : List EndpointInfo) (m : EndpointMap) : EndpointMap :=
  eps.foldl (fun acc ep =>
    if epContains acc ep.unique_id then acc
    else acc ++ [(ep.unique_id, newRecOf ep)]) m

/-- `ProgressManager.sync_endpoints(endpoints)` (insert new candidates,
then `update_counts`, then save — which recounts again, idempotently). -/
def sync_endpoints (p : AnalysisProgress) (eps : List EndpointInfo) : AnalysisProgress :=
  ({ p with endpoints := syncFold eps p.endpoints }).update_counts

/-- Python's tuple-key comparison `(x.file_path, x.endpoint_name)`,
the `list.sort` key of `get_next_endpoints`. -/
def recLe (a b : EndpointProgress) : Bool :=
  if a.file_path = b.file_path then charListLe a.endpoint_name.data b.endpoint_name.data
  else charListLt a.file_path.data b.file_path.data

/-- The records of the store whose status is exactly "pending". -/
def pendingRecords (p : AnalysisProgress) : List EndpointProgress :=
  (p.endpoints.map Prod.snd).filter (fun ep => decide (ep.status = "pending"))

/-- `ProgressManager.get_next_endpoints(batch_size)`: pending records,
sorted (stably) by `(file_path, endpoint_name)`, truncated. -/
def get_next_endpoints (p : AnalysisProgress) (batch_size : Nat) : List EndpointProgress :=
  ((pendingRecords p).mergeSort recLe).take batch_size

/-- The store mutations of `ProgressManager`.  `recountOp` is the bare
`update_counts` performed by `get_summary`. -/
inductive StoreOp where
  | syncOp (eps : List EndpointInfo)
  | claimOp (id now : String)
  | completeOp (id doc now : String)
  | failOp (id msg : String)
  | resetOp
  | recountOp
deriving Repr, DecidableEq

def applyOp : StoreOp → AnalysisProgress → AnalysisProgress
  | .syncOp eps, p => sync_endpoints p eps
  | .claimOp id now, p => mark_in_progress p id now
  | .completeOp id doc now, p => mark_completed p id doc now
  | .failOp id msg, p => mark_failed p id msg
  | .resetOp, p => reset_failed p
  | .recountOp, p => p.update_counts

/-! ## Persistence trace of save_progress (progress_manager.py)

`save_progress` opens the destination file itself with mode "w"
(truncating it), streams the JSON document into it and closes it; the
file-system effects of one call are modelled as a trace of operations
on named files.  The JSON encoder is irrelevant to the claims and is
passed in as the abstract serializer `ser`. -/

inductive FsOp where
  | openTrunc (path : String)
  | writeData (path : String) (data : String)
  | closeFile (path : String)
  | renameFile (src dst : String)
deriving Repr, DecidableEq

/-- `ProgressManager.save_progress()`: no-op when nothing is loaded
(`if not self._progress: return`); otherwise recompute the counters
and write the serialized store to the destination path through a
scoped truncating open.  Returns the in-memory store after the call
and the emitted file-system trace. -/
def save_progress_fs (ser : AnalysisProgress → String) (progress_file : String)
    (loaded : Option AnalysisProgress) : Option AnalysisProgress × List FsOp :=
  match loaded with
  | none => (none, [])
  | some p =>
    let q := p.update_counts
    (some q, [FsOp.openTrunc progress_file,
              FsOp.writeData progress_file (ser q),
              FsOp.closeFile progress_file])

/-- File-system contents as an association list path ↦ content. -/
abbrev FileSys := List (String × String)

def fsGet (fs : FileSys) (path : String) : String :=
  match fs.find? (fun kv => decide (kv.1 = path)) with
  | some kv => kv.2
  | none => ""

def fsSet (fs : FileSys) (path content : String) : FileSys :=
  (path, content) :: fs.filter (fun kv => decide (kv.1 ≠ path))

/-- Effect of one file-system operation. -/
def fsApply (fs : FileSys) : FsOp → FileSys
  | .openTrunc path => fsSet fs path ""
  | .writeData path data => fsSet fs path (fsGet fs path ++ data)
  | .closeFile _ => fs
  | .renameFile src dst => fsSet (fsSet fs src "") dst (fsGet fs src)

def fsRun (fs : FileSys) (tr : List FsOp) : FileSys :=
  tr.foldl fsApply fs

/-- The contents of `dest` a concurrent reader can observe while the
trace executes: one observation per prefix of the trace. -/
def observableContents (fs : FileSys) (dest : String) (tr : List FsOp) : List String :=
  (List.range (tr.length + 1)).map (fun i => fsGet (fsRun fs (tr.take i)) dest)

/-- Modelled from the spec: a trace has write-then-replace semantics
for destination `dest` when it never opens or writes `dest` directly
and its last operation renames some other file onto `dest`. -/
def isWriteThenReplace (dest : String) (tr : List FsOp) : Bool :=
  (tr.all (fun op =>
    match op with
    | .openTrunc p2 => decide (p2 ≠ dest)
    | .writeData p2 _ => decide (p2 ≠ dest)
    | .closeFile _ => true
    | .renameFile _ _ => true)) &&
  (match tr.getLast? with
   | some (.renameFile _ d) => decide (d = dest)
   | _ => false)

/-! ## The manager's load-once cache (progress_manager.py)

`ProgressManager.__init__` sets `self._progress = None`;
`load_progress` returns the cached store when one is present and only
otherwise touches the persisted file.  `disk` is the parse of the
persisted document at call time (`none` = absent or unreadable, which
yields a fresh store), and `readCount` counts actual disk reads. -/

structure MgrState where
  cache : Option AnalysisProgress
  readCount : Nat
deriving Repr, DecidableEq

/-- `ProgressManager.load_progress()`. -/
def load_progress (fresh : AnalysisProgress) (disk : Option AnalysisProgress)
    (st : MgrState) : AnalysisProgress × MgrState :=
  match st.cache with
  | some p => (p, st)
  | none =>
    let p := disk.getD fresh
    (p, ⟨some p, st.readCount + 1⟩)

/-- The manager-level operations; each loads the store (through the
cache), applies its mutation, and reports the document it persisted,
if any. -/
inductive MgrOp where
  | syncOp (eps : List EndpointInfo)
  | nextOp (n : Nat)
  | claimOp (id now : String)
  | completeOp (id doc now : String)
  | failOp (id msg : String)
  | resetOp
  | summaryOp
deriving Repr, DecidableEq

/-- One manager call: the next state and the document written to disk
(`none` when the call does not reach `save_progress`). -/
def mgrStep (fresh : AnalysisProgress) (op : MgrOp) (disk : Option AnalysisProgress)
    (st : MgrState) : MgrState × Option AnalysisProgress :=
  let lp := load_progress fresh disk st
  let p := lp.1
  let st1 := lp.2
  match op with
  | .syncOp eps =>
    let q := sync_endpoints p eps
    (⟨some q, st1.readCount⟩, some q)
  | .nextOp _ => (⟨some p, st1.readCount⟩, none)
  | .claimOp id now =>
    let q := mark_in_progress p id now
    (⟨some q, st1.readCount⟩, if epContains p.endpoints id then some q else none)
  | .completeOp id doc now =>
    let q := mark_completed p id doc now
    (⟨some q, st1.readCount⟩, if epContains p.endpoints id then some q else none)
  | .failOp id msg =>
    let q := mark_failed p id msg
    (⟨some q, st1.readCount⟩, if epContains p.endpoints id then some q else none)
  | .resetOp =>
    let q := reset_failed p
    (⟨some q, st1.readCount⟩, some q)
  | .summaryOp => (⟨some p.update_counts, st1.readCount⟩, none)

/-- Run a sequence of manager calls; each call sees the disk contents
current at its own time (so external writers may change the file
between calls). -/
def mgrRun (fresh : AnalysisProgress) : List (MgrOp × Option AnalysisProgress) →
    MgrState → MgrState
  | [], st => st
  | (op, disk) :: rest, st => mgrRun fresh rest (mgrStep fresh op disk st).1

/-! ## The path guard of CodeReader.read_file (code_reader.py)

`read_file` joins a relative request onto `config.code_dir`, resolves
it with `os.path.abspath`, and rejects it (raises `PermissionError`)
unless the resolved path starts — as a plain string — with the
resolved code directory.  Paths are modelled POSIX-style; `abspath`'s
lexical normalization (collapse slashes, resolve "." and "..") is
`normPath` below.  `code_dir` is already absolute and normal, as
`AnalyzerConfig.__post_init__` applies `abspath` to it. -/

def splitSlash (l : List Char) : List (List Char) :=
  l.foldr (fun c acc =>
    match acc with
    | a :: t => if c = '/' then [] :: a :: t else (c :: a) :: t
    | [] => [[c]]) [[]]

def normSegs (segs : List (List Char)) : List (List Char) :=
  segs.foldl (fun st seg =>
    if seg = [] ∨ seg = ['.'] then st
    else if seg = ['.', '.'] then st.dropLast
    else st ++ [seg]) []

def joinSegs : List (List Char) → List Char
  | [] => []
  | [s] => s
  | s :: rest => s ++ '/' :: joinSegs rest

/-- Lexical normalization of an absolute POSIX path, as
`os.path.abspath` performs on an already-absolute input. -/
def normPath (p : String) : String :=
  ⟨'/' :: joinSegs (normSegs (splitSlash p.data))⟩

def isAbsPath (p : String) : Bool :=
  startsWithChars p.data ['/']

/-- The guard of `CodeReader.read_file(file_path)`: `true` means the
read proceeds, `false` means `PermissionError` is raised and no
content is ever returned. -/
def read_file_allowed (code_dir file_path : String) : Bool :=
  let full := if isAbsPath file_path then file_path else code_dir ++ "/" ++ file_path
  startsWithChars (normPath full).data (normPath code_dir).data

/-- Modelled from the spec: the resolved location lies inside the
configured project root (it is the root itself or sits strictly below
it). -/
def insideRoot (code_dir file_path : String) : Bool :=
  let full := if isAbsPath file_path then file_path else code_dir ++ "/" ++ file_path
  decide (normPath full = normPath code_dir) ||
    startsWithChars (normPath full).data ((normPath code_dir).data ++ ['/'])

/-! ## Concrete fixtures used by the scenario theorems -/

/-- A Go source file whose line 10 is the route registration
`r.GET("/users/:id", getUser)` and whose handler `getUser` is declared
three lines below (inside the 5-line forward-scan window). -/
def goFile : CodeFile :=
  { relative_path := "routes.go"
    language := "go"
    content := "package main\n\n// user routes\n\nfunc setup(r RouterT) \x7b\n\n// register the user endpoint\n\n\nr.GET(\"/users/:id\", getUser)\n\x7d\n\nfunc getUser(w RW, q RQ) \x7b\n\x7d\n" }

/-- Scenario 5 of the spec: `service Users {` followed three lines
later by `rpc GetUser(...)`. -/
def proto1 : CodeFile :=
  { relative_path := "users.proto"
    language := "protobuf"
    content := "service Users \x7b\n\n\n  rpc GetUser (GetUserRequest) returns (GetUserReply);\n\x7d\n" }

/-- A protobuf file with two service blocks, each declaring one rpc. -/
def proto2 : CodeFile :=
  { relative_path := "two.proto"
    language := "protobuf"
    content := "service Alpha \x7b\n  rpc M1 (Q) returns (R);\n\x7d\nservice Beta \x7b\n  rpc M2 (Q) returns (R);\n\x7d\n" }

/-- The candidate the detector produces for `goFile` (checked below). -/
def candGo : EndpointInfo :=
  { name := "getUser", type := "http", method := some "GET", path := some "/users/:id",
    file_path := "routes.go", line_number := 10, function_name := "getUser" }

/-- The first rpc candidate the detector produces for `proto2`
(checked below). -/
def candM1 : EndpointInfo :=
  { name := "M1", type := "grpc", service_name := some "Beta",
    file_path := "two.proto", line_number := 2, function_name := "M1" }

def recX : EndpointProgress :=
  { endpoint_id := "x", endpoint_name := "getUser", endpoint_type := "http",
    file_path := "routes.go" }

/-- A consistent one-record store whose single record is pending. -/
def storeX : AnalysisProgress :=
  { project_name := "proj", code_dir := "/project", output_dir := "/out",
    total_endpoints := 1, pending_count := 1, endpoints := [("x", recX)] }

def recDone : EndpointProgress :=
  { recX with endpoint_id := "http_GET__users_:id", status := "completed",
              doc_file := some "getUser.md" }

/-- A consistent one-record store whose single record is completed. -/
def storeDone : AnalysisProgress :=
  { storeX with pending_count := 0, completed_count := 1,
                endpoints := [("http_GET__users_:id", recDone)] }

/-- A consistent one-record store whose single record is in_progress. -/
def storeClaimed : AnalysisProgress :=
  { storeX with pending_count := 0,
                endpoints := [("x", { recX with status := "in_progress" })] }

/-- A three-record store with two pending records (in file order
`a.go` before `b.go`) and one completed record. -/
def storeBatch : AnalysisProgress :=
  { project_name := "proj", code_dir := "/project", output_dir := "/out",
    total_endpoints := 3, pending_count := 2, completed_count := 1,
    endpoints :=
      [("p1", { endpoint_id := "p1", endpoint_name := "beta", endpoint_type := "http",
                file_path := "b.go" }),
       ("p2", { endpoint_id := "p2", endpoint_name := "alpha", endpoint_type := "http",
                file_path := "a.go" }),
       ("c1", { endpoint_id := "c1", endpoint_name := "gamma", endpoint_type := "http",
                file_path := "c.go", status := "completed" })] }

/-- A store with no pending record at all. -/
def storeDrained : AnalysisProgress :=
  { storeDone with project_name := "drained" }

def ser0 : AnalysisProgress → String := fun _ => "DOC"

def fs0 : FileSys := [("progress.json", "OLD")]

def freshFix : AnalysisProgress :=
  { project_name := "proj", code_dir := "/project", output_dir := "/out" }

/-! ## Support lemmas: the endpoint map -/

theorem epFind_epModify (m : EndpointMap) (k k2 : String)
    (f : EndpointProgress → EndpointProgress) :
    epFind (epModify k f m) k2 = if k2 = k then (epFind m k2).map f else epFind m k2 := by
  induction m with
  | nil => simp [epFind, epModify]
  | cons kv rest ih =>
    by_cases h1 : kv.1 = k
    · by_cases h2 : kv.1 = k2
      · have hk : k = k2 := by rw [← h1]; exact h2
        simp [epModify, epFind, h1, h2, hk, ih]
      · have hk : ¬ (k2 = k) := fun h => h2 (h1.trans h.symm)
        have hk2 : ¬ (k = k2) := fun h => hk h.symm
        simp [epModify, epFind, h1, h2, hk, hk2, ih]
    · by_cases h2 : kv.1 = k2
      · have hk : ¬ (k2 = k) := fun h => h1 (h2.trans h)
        simp [epModify, epFind, h1, h2, hk]
      · simp [epModify, epFind, h1, h2, ih]

theorem epFind_append (m l : EndpointMap) (k : String) :
    epFind (m ++ l) k = match epFind m k with
      | some r => some r
      | none => epFind l k := by
  induction m with
  | nil => simp [epFind]
  | cons kv rest ih =>
    by_cases h : kv.1 = k
    · simp [epFind, h]
    · simp [epFind, h, ih]

theorem epFind_append_of_found {m : EndpointMap} {k : String} {r : EndpointProgress}
    (l : EndpointMap) (h : epFind m k = some r) : epFind (m ++ l) k = some r := by
  rw [epFind_append, h]

theorem mem_epModify {m : EndpointMap} {k : String}
    {f : EndpointProgress → EndpointProgress} {kv : String × EndpointProgress}
    (h : kv ∈ epModify k f m) :
    kv ∈ m ∨ ∃ kv0 ∈ m, kv = (kv0.1, f kv0.2) := by
  induction m with
  | nil => simp [epModify] at h
  | cons kv1 rest ih =>
    by_cases h1 : kv1.1 = k
    · simp only [epModify, if_pos h1, List.mem_cons] at h
      rcases h with h | h
      · exact Or.inr ⟨kv1, List.mem_cons_self _ _, h⟩
      · rcases ih h with h2 | ⟨kv0, hm, he⟩
        · exact Or.inl (List.mem_cons_of_mem _ h2)
        · exact Or.inr ⟨kv0, List.mem_cons_of_mem _ hm, he⟩
    · simp only [epModify, if_neg h1, List.mem_cons] at h
      rcases h with h | h
      · exact Or.inl (h ▸ List.mem_cons_self _ _)
      · rcases ih h with h2 | ⟨kv0, hm, he⟩
        · exact Or.inl (List.mem_cons_of_mem _ h2)
        · exact Or.inr ⟨kv0, List.mem_cons_of_mem _ hm, he⟩

/-- The record-level effect of `reset_failed` on one record. -/
def resetRec (r : EndpointProgress) : EndpointProgress :=
  if r.status = "failed" then { r with status := "pending", error_message := none } else r

theorem epFind_resetMap (m : EndpointMap) (k : String) :
    epFind (m.map (fun (kv : String × EndpointProgress) =>
      if kv.2.status = "failed" then
        (kv.1, { kv.2 with status := "pending", error_message := none })
      else kv)) k = (epFind m k).map resetRec := by
  induction m with
  | nil => simp [epFind]
  | cons kv rest ih =>
    by_cases hs : kv.2.status = "failed"
    · by_cases h : kv.1 = k
      · simp [epFind, hs, h, resetRec]
      · simp [epFind, hs, h, ih]
    · by_cases h : kv.1 = k
      · simp [epFind, hs, h, resetRec]
      · simp [epFind, hs, h, ih]

/-! ## Support lemmas: update_counts and the sync fold -/

theorem update_counts_endpoints (p : AnalysisProgress) :
    (p.update_counts).endpoints = p.endpoints := rfl

theorem update_counts_idem (p : AnalysisProgress) :
    p.update_counts.update_counts = p.update_counts := rfl

theorem syncFold_split (eps : List EndpointInfo) (m : EndpointMap) :
    ∃ l, syncFold eps m = m ++ l ∧ ∀ kv ∈ l, kv.2.status = "pending" := by
  induction eps generalizing m with
  | nil => exact ⟨[], by simp [syncFold], by simp⟩
  | cons ep rest ih =>
    by_cases h : epContains m ep.unique_id
    · rcases ih m with ⟨l, hl, hp⟩
      refine ⟨l, ?_, hp⟩
      simpa [syncFold, h] using hl
    · rcases ih (m ++ [(ep.unique_id, newRecOf ep)]) with ⟨l, hl, hp⟩
      refine ⟨(ep.unique_id, newRecOf ep) :: l, ?_, ?_⟩
      · simpa [syncFold, h] using hl
      · intro kv hkv
        rcases List.mem_cons.mp hkv with h1 | h1
        · subst h1; rfl
        · exact hp kv h1

theorem epFind_syncFold_of_found {m : EndpointMap} {k : String} {r : EndpointProgress}
    (eps : List EndpointInfo) (h : epFind m k = some r) :
    epFind (syncFold eps m) k = some r := by
  rcases syncFold_split eps m with ⟨l, hl, -⟩
  rw [hl]
  exact epFind_append_of_found l h

theorem epContains_syncFold (eps : List EndpointInfo) {m : EndpointMap} {k : String}
    (h : epContains m k = true) : epContains (syncFold eps m) k = true := by
  unfold epContains at h ⊢
  rcases Option.isSome_iff_exists.mp h with ⟨r, hr⟩
  rw [epFind_syncFold_of_found eps hr]
  rfl

theorem epContains_step (m : EndpointMap) (ep : EndpointInfo) :
    epContains (if epContains m ep.unique_id then m
      else m ++ [(ep.unique_id, newRecOf ep)]) ep.unique_id = true := by
  by_cases h : epContains m ep.unique_id
  · simp [h]
  · simp only [if_neg h]
    unfold epContains at h ⊢
    rw [epFind_append]
    rcases h2 : epFind m ep.unique_id with - | r
    · simp [epFind]
    · simp [h2]

theorem syncFold_contains_all (eps : List EndpointInfo) (m : EndpointMap) :
    ∀ ep ∈ eps, epContains (syncFold eps m) ep.unique_id = true := by
  induction eps generalizing m with
  | nil => intro ep h; simp at h
  | cons ep0 rest ih =>
    intro ep h
    rcases List.mem_cons.mp h with h1 | h1
    · subst h1
      show epContains (syncFold rest _) ep.unique_id = true
      have step := epContains_step m ep
      by_cases h2 : epContains m ep.unique_id
      · simp only [syncFold, List.foldl_cons, if_pos h2]
        exact epContains_syncFold rest (by simp only [if_pos h2] at step; exact step)
      · simp only [syncFold, List.foldl_cons, if_neg h2]
        exact epContains_syncFold rest (by simp only [if_neg h2] at step; exact step)
    · by_cases h2 : epContains m ep0.unique_id
      · simpa only [syncFold, List.foldl_cons, if_pos h2] using ih m ep h1
      · simpa only [syncFold, List.foldl_cons, if_neg h2] using
          ih (m ++ [(ep0.unique_id, newRecOf ep0)]) ep h1

theorem syncFold_id (eps : List EndpointInfo) (m : EndpointMap)
    (h : ∀ ep ∈ eps, epContains m ep.unique_id = true) : syncFold eps m = m := by
  induction eps with
  | nil => rfl
  | cons ep rest ih =>
    have h1 : epContains m ep.unique_id = true := h ep (List.mem_cons_self _ _)
    simp only [syncFold, List.foldl_cons, if_pos h1]
    exact ih (fun e he => h e (List.mem_cons_of_mem _ he))

/-! ## Support lemmas: the sort key order -/

theorem charListLe_total (x y : List Char) :
    (charListLe x y || charListLe y x) = true := by
  induction x generalizing y with
  | nil => simp [charListLe]
  | cons a as ih =>
    cases y with
    | nil => simp [charListLe]
    | cons b bs =>
      by_cases h : a = b
      · subst h
        simpa [charListLe] using ih bs
      · rcases lt_or_gt_of_ne h with hlt | hgt
        · simp [charListLe, h, hlt]
        · have h2 : ¬ (b = a) := fun hba => h hba.symm
          simp [charListLe, h, h2, hgt]

theorem charListLe_trans {x y z : List Char}
    (h1 : charListLe x y = true) (h2 : charListLe y z = true) :
    charListLe x z = true := by
  induction x generalizing y z with
  | nil => simp [charListLe]
  | cons a as ih =>
    cases y with
    | nil => simp [charListLe] at h1
    | cons b bs =>
      cases z with
      | nil => simp [charListLe] at h2
      | cons c cs =>
        by_cases hab : a = b
        · subst hab
          by_cases hac : a = c
          · subst hac
            simp only [charListLe, if_pos rfl] at h1 h2 ⊢
            exact ih h1 h2
          · simp only [charListLe, if_pos rfl] at h1
            simp only [charListLe, if_neg hac] at h2 ⊢
            exact h2
        · by_cases hbc : b = c
          · subst hbc
            simp only [charListLe, if_neg hab] at h1 ⊢
            exact h1
          · simp only [charListLe, if_neg hab] at h1
            simp only [charListLe, if_neg hbc] at h2
            have hlt : a < c := lt_trans (of_decide_eq_true h1) (of_decide_eq_true h2)
            have hac : ¬ (a = c) := ne_of_lt hlt
            simp [charListLe, hac, hlt]

theorem charListLt_trans {x y z : List Char}
    (h1 : charListLt x y = true) (h2 : charListLt y z = true) :
    charListLt x z = true := by
  induction x generalizing y z with
  | nil =>
    cases y with
    | nil => simp [charListLt] at h1
    | cons b bs =>
      cases z with
      | nil => simp [charListLt] at h2
      | cons c cs => simp [charListLt]
  | cons a as ih =>
    cases y with
    | nil => simp [charListLt] at h1
    | cons b bs =>
      cases z with
      | nil => simp [charListLt] at h2
      | cons c cs =>
        by_cases hab : a = b
        · subst hab
          by_cases hac : a = c
          · subst hac
            simp only [charListLt, if_pos rfl] at h1 h2 ⊢
            exact ih h1 h2
          · simp only [charListLt, if_pos rfl] at h1
            simp only [charListLt, if_neg hac] at h2 ⊢
            exact h2
        · by_cases hbc : b = c
          · subst hbc
            simp only [charListLt, if_neg hab] at h1 ⊢
            exact h1
          · simp only [charListLt, if_neg hab] at h1
            simp only [charListLt, if_neg hbc] at h2
            have hlt : a < c := lt_trans (of_decide_eq_true h1) (of_decide_eq_true h2)
            have hac : ¬ (a = c) := ne_of_lt hlt
            simp [charListLt, hac, hlt]

theorem charListLt_total_of_ne {x y : List Char} (h : x ≠ y) :
    (charListLt x y || charListLt y x) = true := by
  induction x generalizing y with
  | nil =>
    cases y with
    | nil => exact absurd rfl h
    | cons b bs => simp [charListLt]
  | cons a as ih =>
    cases y with
    | nil => simp [charListLt]
    | cons b bs =>
      by_cases hab : a = b
      · subst hab
        have hne : as ≠ bs := fun he => h (by rw [he])
        simpa [charListLt] using ih hne
      · rcases lt_or_gt_of_ne hab with hlt | hgt
        · simp [charListLt, hab, hlt]
        · have h2 : ¬ (b = a) := fun hba => hab hba.symm
          simp [charListLt, hab, h2, hgt]

theorem string_data_ne {a b : String} (h : a ≠ b) : a.data ≠ b.data := by
  intro he
  apply h
  cases a with
  | mk d1 =>
    cases b with
    | mk d2 =>
      have hd : d1 = d2 := he
      rw [hd]

theorem charListLt_irrefl (x : List Char) : charListLt x x = false := by
  induction x with
  | nil => rfl
  | cons a as ih => simp [charListLt, ih]

theorem recLe_total (a b : EndpointProgress) : (recLe a b || recLe b a) = true := by
  by_cases h : a.file_path = b.file_path
  · have h2 : b.file_path = a.file_path := h.symm
    simp only [recLe, if_pos h, if_pos h2]
    exact charListLe_total _ _
  · have h2 : ¬ (b.file_path = a.file_path) := fun he => h he.symm
    simp only [recLe, if_neg h, if_neg h2]
    exact charListLt_total_of_ne (string_data_ne h)

theorem recLe_trans (a b c : EndpointProgress)
    (h1 : recLe a b = true) (h2 : recLe b c = true) : recLe a c = true := by
  by_cases hab : a.file_path = b.file_path
  · by_cases hbc : b.file_path = c.file_path
    · have hac : a.file_path = c.file_path := hab.trans hbc
      simp only [recLe, if_pos hab] at h1
      simp only [recLe, if_pos hbc] at h2
      simp only [recLe, if_pos hac]
      exact charListLe_trans h1 h2
    · have hac : ¬ (a.file_path = c.file_path) := fun he => hbc (hab.symm.trans he)
      simp only [recLe, if_neg hbc] at h2
      simp only [recLe, if_neg hac]
      rw [hab]
      exact h2
  · by_cases hbc : b.file_path = c.file_path
    · have hac : ¬ (a.file_path = c.file_path) := fun he => hab (he.trans hbc.symm)
      simp only [recLe, if_neg hab] at h1
      simp only [recLe, if_neg hac]
      rw [← hbc]
      exact h1
    · simp only [recLe, if_neg hab] at h1
      simp only [recLe, if_neg hbc] at h2
      have hlt := charListLt_trans h1 h2
      by_cases hac : a.file_path = c.file_path
      · exfalso
        rw [hac] at h1
        have hcc := charListLt_trans h1 h2
        rw [charListLt_irrefl] at hcc
        exact Bool.false_ne_true hcc
      · simp only [recLe, if_neg hac]
        exact hlt

/-! ## Support lemmas: status counting -/

/-- The record's status is one of the four legal state-machine values. -/
def statusOk (r : EndpointProgress) : Bool :=
  decide (r.status = "pending") || decide (r.status = "in_progress") ||
  decide (r.status = "completed") || decide (r.status = "failed")

/-- Every record of the store carries a legal status. -/
def storeWF (p : AnalysisProgress) : Bool :=
  p.endpoints.all (fun kv => statusOk kv.2)

theorem countStatus_cons (kv : String × EndpointProgress) (m : EndpointMap) (s : String) :
    countStatus (kv :: m) s = countStatus m s + (if kv.2.status = s then 1 else 0) := by
  simp [countStatus, List.countP_cons]

theorem countStatus_partition (m : EndpointMap)
    (h : ∀ kv ∈ m, statusOk kv.2 = true) :
    countStatus m "completed" + countStatus m "failed" + countStatus m "pending" +
      countStatus m "in_progress" = m.length := by
  induction m with
  | nil => simp [countStatus]
  | cons kv rest ih =>
    have hr := h kv (List.mem_cons_self _ _)
    have ihr := ih (fun kv2 h2 => h kv2 (List.mem_cons_of_mem _ h2))
    simp only [statusOk, Bool.or_eq_true, decide_eq_true_eq] at hr
    rcases hr with ((hp | hi) | hc) | hf
    · rw [countStatus_cons, countStatus_cons, countStatus_cons, countStatus_cons]
      simp [hp, List.length_cons]
      omega
    · rw [countStatus_cons, countStatus_cons, countStatus_cons, countStatus_cons]
      simp [hi, List.length_cons]
      omega
    · rw [countStatus_cons, countStatus_cons, countStatus_cons, countStatus_cons]
      simp [hc, List.length_cons]
      omega
    · rw [countStatus_cons, countStatus_cons, countStatus_cons, countStatus_cons]
      simp [hf, List.length_cons]
      omega

/-- The amended counter invariant: the three cached status counters
plus the number of in_progress records equal the cached total, which
is the number of records. -/
def countersOk (p : AnalysisProgress) : Prop :=
  p.completed_count + p.failed_count + p.pending_count +
      countStatus p.endpoints "in_progress" = p.total_endpoints ∧
    p.total_endpoints = p.endpoints.length

theorem countersOk_update_counts (p : AnalysisProgress) (h : storeWF p = true) :
    countersOk p.update_counts := by
  refine ⟨?_, rfl⟩
  show countStatus p.endpoints "completed" + countStatus p.endpoints "failed" +
      countStatus p.endpoints "pending" + countStatus p.endpoints "in_progress" =
      p.endpoints.length
  exact countStatus_partition p.endpoints (by
    intro kv hkv
    exact List.all_eq_true.mp h kv hkv)

theorem statusOk_mem_applyOp (op : StoreOp) (p : AnalysisProgress)
    (h : storeWF p = true) : storeWF (applyOp op p) = true := by
  have hmem : ∀ kv ∈ p.endpoints, statusOk kv.2 = true := List.all_eq_true.mp h
  cases op with
  | syncOp eps =>
    show (syncFold eps p.endpoints).all _ = true
    rcases syncFold_split eps p.endpoints with ⟨l, hl, hp⟩
    rw [hl, List.all_append]
    have h2 : (p.endpoints.all fun kv => statusOk kv.2) = true := h
    rw [h2, Bool.true_and]
    refine List.all_eq_true.mpr ?_
    intro kv hkv
    simp [statusOk, hp kv hkv]
  | claimOp id now =>
    show storeWF (mark_in_progress p id now) = true
    by_cases hc : epContains p.endpoints id
    · rw [mark_in_progress, if_pos hc]
      refine List.all_eq_true.mpr ?_
      intro kv hkv
      rcases mem_epModify hkv with hin | ⟨kv0, hin, he⟩
      · exact hmem kv hin
      · rw [he]; simp [statusOk]
    · rw [mark_in_progress, if_neg hc]; exact h
  | completeOp id doc now =>
    show storeWF (mark_completed p id doc now) = true
    by_cases hc : epContains p.endpoints id
    · rw [mark_completed, if_pos hc]
      refine List.all_eq_true.mpr ?_
      intro kv hkv
      rcases mem_epModify hkv with hin | ⟨kv0, hin, he⟩
      · exact hmem kv hin
      · rw [he]; simp [statusOk]
    · rw [mark_completed, if_neg hc]; exact h
  | failOp id msg =>
    show storeWF (mark_failed p id msg) = true
    by_cases hc : epContains p.endpoints id
    · rw [mark_failed, if_pos hc]
      refine List.all_eq_true.mpr ?_
      intro kv hkv
      rcases mem_epModify hkv with hin | ⟨kv0, hin, he⟩
      · exact hmem kv hin
      · rw [he]; simp [statusOk]
    · rw [mark_failed, if_neg hc]; exact h
  | resetOp =>
    refine List.all_eq_true.mpr ?_
    intro kv hkv
    rcases List.mem_map.mp hkv with ⟨kv0, hin, he⟩
    by_cases hs : kv0.2.status = "failed"
    · rw [← he]; simp [hs, statusOk]
    · rw [← he]; simp only [if_neg hs]; exact hmem kv0 hin
  | recountOp => exact h

/-- C1: the spec requires a claim of a non-existent identity, and a
double-claim of an in_progress or completed record, to fail loudly;
the code instead returns without any error channel: a missing identity
leaves the store byte-for-byte unchanged, and a claim against a
completed or in_progress record silently overwrites its status with
"in_progress". -/
theorem C1_claim_is_silent :
    mark_in_progress storeX "nosuch" "t9" = storeX ∧
    (epFind (mark_in_progress storeDone "http_GET__users_:id" "t9").endpoints
        "http_GET__users_:id").map (fun r => r.status) = some "in_progress" ∧
    (epFind (mark_in_progress storeClaimed "x" "t9").endpoints "x").map
        (fun r => r.status) = some "in_progress" := by
  decide

/-- C2 counterexample: the claimed equation
`completed + failed + pending = total` fails after claiming the single
pending record of a consistent store — the counters are recomputed by
the save inside `mark_in_progress`, yet the in_progress record is
counted by none of the three counters. -/
theorem C2_counterexample :
    ¬ ((mark_in_progress storeX "x" "t0").completed_count +
        (mark_in_progress storeX "x" "t0").failed_count +
        (mark_in_progress storeX "x" "t0").pending_count =
        (mark_in_progress storeX "x" "t0").total_endpoints) := by
  decide

/-- C2 amended: for every store whose records carry one of the four
legal statuses and whose counters are consistent, every mutation of
the store keeps the statuses legal and re-establishes
`completed + failed + pending + #in_progress = total = len(records)`;
the claimed three-term equation therefore holds exactly when no record
is in_progress. -/
theorem C2_counters_amended : ∀ (op : StoreOp) (p : AnalysisProgress),
    storeWF p = true → countersOk p →
    storeWF (applyOp op p) = true ∧ countersOk (applyOp op p) := by
  intro op p hw hc
  refine ⟨statusOk_mem_applyOp op p hw, ?_⟩
  have hw2 := statusOk_mem_applyOp op p hw
  cases op with
  | syncOp eps => exact countersOk_update_counts _ hw2
  | claimOp id now =>
    by_cases hcon : epContains p.endpoints id
    · show countersOk (mark_in_progress p id now)
      rw [mark_in_progress, if_pos hcon]
      refine countersOk_update_counts _ ?_
      have : storeWF (mark_in_progress p id now) = true := hw2
      rw [mark_in_progress, if_pos hcon] at this
      exact this
    · show countersOk (mark_in_progress p id now)
      rw [mark_in_progress, if_neg hcon]
      exact hc
  | completeOp id doc now =>
    by_cases hcon : epContains p.endpoints id
    · show countersOk (mark_completed p id doc now)
      rw [mark_completed, if_pos hcon]
      refine countersOk_update_counts _ ?_
      have : storeWF (mark_completed p id doc now) = true := hw2
      rw [mark_completed, if_pos hcon] at this
      exact this
    · show countersOk (mark_completed p id doc now)
      rw [mark_completed, if_neg hcon]
      exact hc
  | failOp id msg =>
    by_cases hcon : epContains p.endpoints id
    · show countersOk (mark_failed p id msg)
      rw [mark_failed, if_pos hcon]
      refine countersOk_update_counts _ ?_
      have : storeWF (mark_failed p id msg) = true := hw2
      rw [mark_failed, if_pos hcon] at this
      exact this
    · show countersOk (mark_failed p id msg)
      rw [mark_failed, if_neg hcon]
      exact hc
  | resetOp => exact countersOk_update_counts _ hw2
  | recountOp => exact countersOk_update_counts _ hw2

/-- C2 witness: the amended invariant holds concretely after claiming
the pending record of `storeX`. -/
theorem C2_counters_witness :
    storeWF (applyOp (StoreOp.claimOp "x" "t0") storeX) = true ∧
    countersOk (applyOp (StoreOp.claimOp "x" "t0") storeX) :=
  C2_counters_amended (StoreOp.claimOp "x" "t0") storeX (by decide) ⟨by decide, by decide⟩

/-- C4: syncing is idempotent and never touches or removes existing
records: a record found under a key before the sync is found unchanged
(all fields, including status and artifact reference) after syncing
with any candidate set, no key is removed, and re-running a sync with
the same candidates is a no-op. -/
theorem C4_sync_idempotent_untouched :
    (∀ (p : AnalysisProgress) (S : List EndpointInfo),
      sync_endpoints (sync_endpoints p S) S = sync_endpoints p S) ∧
    (∀ (p : AnalysisProgress) (S : List EndpointInfo) (k : String) (r : EndpointProgress),
      epFind p.endpoints k = some r →
      epFind (sync_endpoints p S).endpoints k = some r) ∧
    (∀ (p : AnalysisProgress) (S : List EndpointInfo) (k : String),
      epContains p.endpoints k = true →
      epContains (sync_endpoints p S).endpoints k = true) := by
  refine ⟨?_, ?_, ?_⟩
  · intro p S
    have hid : syncFold S (syncFold S p.endpoints) = syncFold S p.endpoints :=
      syncFold_id S _ (syncFold_contains_all S p.endpoints)
    show ({ sync_endpoints p S with
        endpoints := syncFold S (sync_endpoints p S).endpoints }).update_counts =
      sync_endpoints p S
    have he : (sync_endpoints p S).endpoints = syncFold S p.endpoints := rfl
    rw [he, hid]
    rfl
  · intro p S k r h
    show epFind (syncFold S p.endpoints) k = some r
    exact epFind_syncFold_of_found S h
  · intro p S k h
    show epContains (syncFold S p.endpoints) k = true
    exact epContains_syncFold S h

/-- C4 witness: the completed record of `storeDone` survives a sync
with the candidate whose identity it carries, unchanged. -/
theorem C4_sync_witness :
    epFind (sync_endpoints storeDone [candGo]).endpoints "http_GET__users_:id" =
      some recDone :=
  C4_sync_idempotent_untouched.2.1 storeDone [candGo] "http_GET__users_:id" recDone (by decide)

/-- C5: the batch selector returns only pending records, in ascending
`(file_path, endpoint_name)` order, at most `n` of them; it returns
`[]` (not an error) when nothing is pending; it is deterministic on an
unchanged store; and whenever `n` covers all pending records the
result is exactly the pending records (as a permutation). -/
theorem C5_next_batch_spec : ∀ (p : AnalysisProgress) (n : Nat),
    (∀ ep ∈ get_next_endpoints p n, ep.status = "pending") ∧
    List.Pairwise (fun a b => recLe a b = true) (get_next_endpoints p n) ∧
    (get_next_endpoints p n).length ≤ n ∧
    (pendingRecords p = [] → get_next_endpoints p n = []) ∧
    get_next_endpoints p n = get_next_endpoints p n ∧
    ((pendingRecords p).length ≤ n →
      (get_next_endpoints p n).Perm (pendingRecords p)) := by
  intro p n
  refine ⟨?_, ?_, ?_, ?_, rfl, ?_⟩
  · intro ep hm
    have hm2 : ep ∈ (pendingRecords p).mergeSort recLe := List.mem_of_mem_take hm
    have hm3 : ep ∈ pendingRecords p :=
      (List.mergeSort_perm (pendingRecords p) recLe).mem_iff.mp hm2
    have := (List.mem_filter.mp hm3).2
    exact of_decide_eq_true this
  · have hs : List.Pairwise (fun a b => recLe a b = true)
        ((pendingRecords p).mergeSort recLe) :=
      List.sorted_mergeSort recLe_trans recLe_total (pendingRecords p)
    exact List.Pairwise.sublist (List.take_sublist n _) hs
  · exact List.length_take_le n _
  · intro h
    show (((pendingRecords p).mergeSort recLe).take n) = []
    rw [h, List.mergeSort_nil, List.take_nil]
  · intro h
    have hl : ((pendingRecords p).mergeSort recLe).length = (pendingRecords p).length :=
      (List.mergeSort_perm (pendingRecords p) recLe).length_eq
    show (((pendingRecords p).mergeSort recLe).take n).Perm (pendingRecords p)
    rw [List.take_of_length_le (by rw [hl]; exact h)]
    exact List.mergeSort_perm (pendingRecords p) recLe

/-- C5 witness: on the concrete `storeBatch` the selector keeps within
the batch size, and a drained store yields the empty batch. -/
theorem C5_next_batch_witness :
    (get_next_endpoints storeBatch 2).length ≤ 2 ∧
    get_next_endpoints storeDrained 1 = [] :=
  ⟨(C5_next_batch_spec storeBatch 2).2.2.1,
   (C5_next_batch_spec storeDrained 1).2.2.2.1 (by decide)⟩

theorem epContains_of_found {m : EndpointMap} {k : String} {r : EndpointProgress}
    (h : epFind m k = some r) : epContains m k = true := by
  unfold epContains
  rw [h]
  rfl

theorem retry_after_epModify {p : AnalysisProgress} {id k : String}
    {r r2 : EndpointProgress} (f : EndpointProgress → EndpointProgress)
    (hf : ∀ s : EndpointProgress, s.retry_count ≤ (f s).retry_count)
    (h : epFind p.endpoints k = some r)
    (h2 : epFind (epModify id f p.endpoints) k = some r2) :
    r.retry_count ≤ r2.retry_count := by
  rw [epFind_epModify] at h2
  by_cases hk : k = id
  · rw [if_pos hk, h] at h2
    cases h2
    exact hf r
  · rw [if_neg hk, h] at h2
    cases h2
    exact Nat.le_refl _

/-- C6: failing a record stores the message and increments the retry
count by exactly one; resetting returns every failed record to pending
with a cleared error message and an untouched retry count; the
concrete claim-fail-reset scenario ends with status "pending", error
`none` and retry count 1; and no store operation ever decreases a
record's retry count. -/
theorem C6_fail_reset_retry :
    (∀ (p : AnalysisProgress) (id msg : String) (r : EndpointProgress),
      epFind p.endpoints id = some r →
      epFind (mark_failed p id msg).endpoints id =
        some { r with status := "failed", error_message := some msg,
                      retry_count := r.retry_count + 1 }) ∧
    (∀ (p : AnalysisProgress) (k : String) (r : EndpointProgress),
      epFind p.endpoints k = some r → r.status = "failed" →
      epFind (reset_failed p).endpoints k =
        some { r with status := "pending", error_message := none }) ∧
    (epFind (reset_failed (mark_failed (mark_in_progress storeX "x" "t1")
        "x" "timeout")).endpoints "x" =
      some { recX with status := "pending", started_at := some "t1",
                       error_message := none, retry_count := 1 }) ∧
    (∀ (op : StoreOp) (p : AnalysisProgress) (k : String) (r r2 : EndpointProgress),
      epFind p.endpoints k = some r →
      epFind (applyOp op p).endpoints k = some r2 →
      r.retry_count ≤ r2.retry_count) := by
  refine ⟨?_, ?_, by decide, ?_⟩
  · intro p id msg r h
    rw [mark_failed, if_pos (epContains_of_found h)]
    show epFind (epModify id _ p.endpoints) id = _
    rw [epFind_epModify, if_pos rfl, h]
    rfl
  · intro p k r h hf
    show epFind (p.endpoints.map _) k = _
    rw [epFind_resetMap, h]
    simp [resetRec, hf]
  · intro op p k r r2 h h2
    cases op with
    | syncOp eps =>
      have h3 : epFind (sync_endpoints p eps).endpoints k = some r := by
        show epFind (syncFold eps p.endpoints) k = some r
        exact epFind_syncFold_of_found eps h
      rw [show applyOp (StoreOp.syncOp eps) p = sync_endpoints p eps from rfl, h3] at h2
      cases h2
      exact Nat.le_refl _
    | claimOp id now =>
      by_cases hc : epContains p.endpoints id
      · rw [show applyOp (StoreOp.claimOp id now) p = mark_in_progress p id now from rfl,
            mark_in_progress, if_pos hc] at h2
        exact retry_after_epModify
          (fun ep => { ep with status := "in_progress", started_at := some now })
          (fun s => Nat.le_refl _) h h2
      · rw [show applyOp (StoreOp.claimOp id now) p = mark_in_progress p id now from rfl,
            mark_in_progress, if_neg hc, h] at h2
        cases h2
        exact Nat.le_refl _
    | completeOp id doc now =>
      by_cases hc : epContains p.endpoints id
      · rw [show applyOp (StoreOp.completeOp id doc now) p = mark_completed p id doc now from rfl,
            mark_completed, if_pos hc] at h2
        exact retry_after_epModify
          (fun ep => { ep with status := "completed", doc_file := some doc,
                               completed_at := some now })
          (fun s => Nat.le_refl _) h h2
      · rw [show applyOp (StoreOp.completeOp id doc now) p = mark_completed p id doc now from rfl,
            mark_completed, if_neg hc, h] at h2
        cases h2
        exact Nat.le_refl _
    | failOp id msg =>
      by_cases hc : epContains p.endpoints id
      · rw [show applyOp (StoreOp.failOp id msg) p = mark_failed p id msg from rfl,
            mark_failed, if_pos hc] at h2
        exact retry_after_epModify
          (fun ep => { ep with status := "failed", error_message := some msg,
                               retry_count := ep.retry_count + 1 })
          (fun s => Nat.le_succ _) h h2
      · rw [show applyOp (StoreOp.failOp id msg) p = mark_failed p id msg from rfl,
            mark_failed, if_neg hc, h] at h2
        cases h2
        exact Nat.le_refl _
    | resetOp =>
      have h3 : epFind (reset_failed p).endpoints k = some (resetRec r) := by
        show epFind (p.endpoints.map _) k = _
        rw [epFind_resetMap, h]
        rfl
      rw [show applyOp StoreOp.resetOp p = reset_failed p from rfl, h3] at h2
      cases h2
      by_cases hf : r.status = "failed"
      · simp [resetRec, hf]
      · simp [resetRec, hf]
    | recountOp =>
      have h3 : (applyOp StoreOp.recountOp p).endpoints = p.endpoints := rfl
      rw [h3, h] at h2
      cases h2
      exact Nat.le_refl _

/-- C6 witness: failing the pending record of `storeX` with message
"boom" yields the expected failed record with retry count 1. -/
theorem C6_fail_witness :
    epFind (mark_failed storeX "x" "boom").endpoints "x" =
      some { recX with status := "failed", error_message := some "boom",
                       retry_count := 1 } :=
  C6_fail_reset_retry.1 storeX "x" "boom" recX (by decide)

/-- C3 counterexample: `save_progress` does not have write-then-replace
semantics — its trace truncates the destination in place and streams
the document into it — and a concurrent reader positioned between the
truncating open and the completed write observes the empty document,
which is neither the previous document nor the new one. -/
theorem C3_save_counterexample :
    isWriteThenReplace "progress.json"
      (save_progress_fs ser0 "progress.json" (some storeX)).2 = false ∧
    observableContents fs0 "progress.json"
      (save_progress_fs ser0 "progress.json" (some storeX)).2 =
      ["OLD", "", "DOC", "DOC"] ∧
    ¬ (("" : String) = "OLD" ∨ ("" : String) = "DOC") := by
  decide

/-- C3 amended: every save first recomputes the counters and then
persists the full document through a scoped truncating open of the
destination itself (open, write, close) — not an atomic
write-then-replace — and a save with nothing loaded is a no-op. -/
theorem C3_save_trace_amended : ∀ (ser : AnalysisProgress → String)
    (f : String) (p : AnalysisProgress),
    save_progress_fs ser f (some p) =
      (some p.update_counts,
       [FsOp.openTrunc f, FsOp.writeData f (ser p.update_counts), FsOp.closeFile f]) ∧
    isWriteThenReplace f (save_progress_fs ser f (some p)).2 = false ∧
    save_progress_fs ser f none = (none, []) := by
  intro ser f p
  refine ⟨rfl, ?_, rfl⟩
  simp [isWriteThenReplace, save_progress_fs]

/-- C7 counterexample: on the concrete Go scenario file the (deduped)
detector output's identity is not the string the claim names — the
`:` of the `:id` path parameter survives normalization. -/
theorem C7_identity_counterexample :
    ¬ ((findEndpointsInFile [] goFile).2.map (fun e => e.unique_id) =
        ["http_GET__users__id"]) := by
  decide

/-- C7 amended: the scenario file yields exactly one deduplicated
candidate with kind http, method GET, path `/users/:id`, line 10 and
owning function getUser, and its identity is "http_GET__users_:id":
slashes are replaced by underscores and braces are stripped, but the
colon of the path parameter is kept. -/
theorem C7_scenario_amended :
    (findEndpointsInFile [] goFile).2 = [candGo] ∧
    candGo.unique_id = "http_GET__users_:id" := by
  decide

/-- C9: the guard of `read_file` resolves and rejects an upward
path-traversal request, but its string-prefix comparison accepts an
absolute path into the sibling directory `/project-evil`, which lies
outside the configured root — contradicting the required rejection of
every path that escapes the root. -/
theorem C9_path_guard_evaluation :
    read_file_allowed "/project" "../secrets/key.txt" = false ∧
    read_file_allowed "/project" "docs/readme.md" = true ∧
    insideRoot "/project" "docs/readme.md" = true ∧
    read_file_allowed "/project" "/project-evil/secret.txt" = true ∧
    insideRoot "/project" "/project-evil/secret.txt" = false := by
  decide

/-! ## C8 support: how the service name is threaded -/

/-- `match.group(1)` of a service / rpc match, as the detector reads it. -/
def grpcName (m : RMatch) : String := ⟨(getGroup m 1).getD []⟩

/-- The service name after processing a run of service-declaration
matches starting from `s0`. -/
def lastNameOpt (ms : List RMatch) (s0 : Option String) : Option String :=
  ms.foldl (fun _ m => some (grpcName m)) s0

/-- The name of the last service declaration of the whole file — the
value `current_service` holds when the rpc pattern starts matching. -/
def lastServiceName (cf : CodeFile) : Option String :=
  lastNameOpt (finditer protoServicePat cf.content.data) none

/-- Modelled from the spec: the service declaration "currently open"
at text offset `pos` — the last service-pattern match that starts
before `pos` (none when no declaration precedes the position). -/
def specOpenServiceBefore (cf : CodeFile) (pos : Nat) : Option String :=
  lastNameOpt ((finditer protoServicePat cf.content.data).filter
    (fun m => decide (m.startPos < pos))) none

theorem grpcStep_service (cf : CodeFile) (st : Option String × List EndpointInfo)
    (m : RMatch) :
    grpcStep cf ⟨protoServicePat, "service", 1⟩ st m = (some (grpcName m), st.2) := by
  simp [grpcStep, grpcName]

theorem foldl_service (cf : CodeFile) (ms : List RMatch)
    (st : Option String × List EndpointInfo) :
    ms.foldl (grpcStep cf ⟨protoServicePat, "service", 1⟩) st =
      (lastNameOpt ms st.1, st.2) := by
  induction ms generalizing st with
  | nil => rfl
  | cons m rest ih =>
    rw [List.foldl_cons, grpcStep_service, ih]
    rfl

theorem grpcStep_rpc (cf : CodeFile) (st : Option String × List EndpointInfo)
    (m : RMatch) :
    grpcStep cf ⟨protoRpcPat, "rpc", 1⟩ st m =
      (st.1, st.2 ++ [{ name := grpcName m, type := "grpc", service_name := st.1,
                        file_path := cf.relative_path,
                        line_number := countNL cf.content.data m.startPos + 1,
                        function_name := grpcName m }]) := by
  simp [grpcStep, grpcName]

theorem foldl_rpc_mem (cf : CodeFile) (ms : List RMatch)
    (st : Option String × List EndpointInfo) :
    ∀ e ∈ (ms.foldl (grpcStep cf ⟨protoRpcPat, "rpc", 1⟩) st).2,
      e ∈ st.2 ∨ e.service_name = st.1 := by
  induction ms generalizing st with
  | nil => intro e he; exact Or.inl he
  | cons m rest ih =>
    intro e he
    rw [List.foldl_cons, grpcStep_rpc] at he
    rcases ih _ e he with hin | hsv
    · rcases List.mem_append.mp hin with h1 | h1
      · exact Or.inl h1
      · right
        rcases List.mem_singleton.mp h1 with rfl
        rfl
    · exact Or.inr hsv

/-- C8 counterexample: in a file with two service blocks the first rpc
candidate (`M1`, declared inside `service Alpha`) carries service name
"Beta" — yet the service declaration open at its match position
(offset 18) is "Alpha".  The rule table is iterated pattern-by-pattern
over the whole file, so every method match sees only the final value
of `current_service`. -/
theorem C8_service_counterexample :
    (find_grpc_endpoints proto2).map (fun e => (e.name, e.service_name)) =
      [("M1", some "Beta"), ("M2", some "Beta")] ∧
    (finditer protoRpcPat proto2.content.data).map (fun m => m.startPos) = [18, 61] ∧
    specOpenServiceBefore proto2 18 = some "Alpha" ∧
    (some "Beta" : Option String) ≠ some "Alpha" := by
  decide

/-- C8 amended: for a protobuf file, every emitted rpc candidate
carries the name of the LAST service declaration of the whole file
(none when the file declares no service), because all service-pattern
matches are processed before any rpc-pattern match; in particular the
single-service scenario (`service Users` followed three lines later by
`rpc GetUser`) yields one candidate GetUser with service Users. -/
theorem C8_grpc_amended :
    (∀ cf : CodeFile, cf.language = "protobuf" →
      ∀ e ∈ find_grpc_endpoints cf, e.service_name = lastServiceName cf) ∧
    find_grpc_endpoints proto1 =
      [{ name := "GetUser", type := "grpc", service_name := some "Users",
         file_path := "users.proto", line_number := 4, function_name := "GetUser" }] := by
  constructor
  · intro cf hl e he
    unfold find_grpc_endpoints at he
    rw [hl] at he
    simp only [grpcRules, List.foldl_cons, List.foldl_nil] at he
    rw [foldl_service cf _ (none, [])] at he
    rcases foldl_rpc_mem cf _ _ e he with h1 | h1
    · simp at h1
    · exact h1
  · decide

/-- C8 witness: instantiating the general statement on `proto2` shows
the concrete first candidate's service name equals the file's last
service declaration. -/
theorem C8_grpc_witness :
    candM1.service_name = lastServiceName proto2 :=
  C8_grpc_amended.1 proto2 rfl candM1 (by decide)

/-! ## C10 support: the cache invariant -/

/-- The invariant maintained by every manager call: at most one disk
read so far, and none at all while nothing is cached. -/
def mgrInv (st : MgrState) : Prop :=
  st.readCount ≤ 1 ∧ (st.cache = none → st.readCount = 0)

theorem mgrStep_inv (fresh : AnalysisProgress) (op : MgrOp)
    (disk : Option AnalysisProgress) (st : MgrState) (h : mgrInv st) :
    mgrInv (mgrStep fresh op disk st).1 := by
  obtain ⟨h1, h2⟩ := h
  cases hc : st.cache with
  | some p =>
    cases op <;>
      simp only [mgrStep, load_progress, hc] <;>
      exact ⟨h1, fun hx => nomatch hx⟩
  | none =>
    have h0 : st.readCount = 0 := h2 hc
    cases op <;>
      simp only [mgrStep, load_progress, hc, h0] <;>
      exact ⟨Nat.le_refl 1, fun hx => nomatch hx⟩

theorem mgrRun_inv (fresh : AnalysisProgress)
    (ops : List (MgrOp × Option AnalysisProgress)) (st : MgrState)
    (h : mgrInv st) : mgrInv (mgrRun fresh ops st) := by
  induction ops generalizing st with
  | nil => exact h
  | cons od rest ih => exact ih _ (mgrStep_inv fresh od.1 od.2 st h)

/-- C10: within one manager instance the persisted document is read at
most once, whatever sequence of operations runs and whatever an
external writer does to the file in between; and once the cache is
populated every operation is entirely independent of the on-disk
contents (same next state and same persisted output for any two disk
states), so external modifications are never observed and are
overwritten by the next save. -/
theorem C10_load_once :
    (∀ (fresh : AnalysisProgress) (ops : List (MgrOp × Option AnalysisProgress)),
      (mgrRun fresh ops ⟨none, 0⟩).readCount ≤ 1) ∧
    (∀ (fresh : AnalysisProgress) (op : MgrOp) (d1 d2 : Option AnalysisProgress)
      (st : MgrState), st.cache.isSome = true →
      mgrStep fresh op d1 st = mgrStep fresh op d2 st) := by
  constructor
  · intro fresh ops
    exact (mgrRun_inv fresh ops ⟨none, 0⟩ ⟨Nat.zero_le 1, fun _ => rfl⟩).1
  · intro fresh op d1 d2 st hs
    obtain ⟨c, n⟩ := st
    cases c with
    | none => simp at hs
    | some p => cases op <;> rfl

/-- C10 witness: a concrete two-call run performs at most one read,
and with a populated cache a call gives identical results for two
different disk states. -/
theorem C10_load_once_witness :
    (mgrRun freshFix [(MgrOp.syncOp [], none), (MgrOp.claimOp "x" "t", some storeX)]
      ⟨none, 0⟩).readCount ≤ 1 ∧
    mgrStep freshFix (MgrOp.nextOp 1) (some storeX) ⟨some storeDone, 1⟩ =
      mgrStep freshFix (MgrOp.nextOp 1) none ⟨some storeDone, 1⟩ :=
  ⟨C10_load_once.1 freshFix _,
   C10_load_once.2 freshFix (MgrOp.nextOp 1) (some storeX) none ⟨some storeDone, 1⟩ rfl⟩
